import Mathlib

/-
  Verification development for the getv-ffmpeg media-processing service
  (src/server.js).  The JavaScript source is shallowly embedded: pure
  decision logic (quality tables, format selectors, command builders,
  the sort comparator) becomes Lean functions; the async task registry
  and its endpoints become an explicit state type with a step relation;
  the HTTP fetcher's streaming download becomes a function from a
  network scenario to an outcome recording the promise result and
  whether the written file is still on disk when the promise settles.
-/

namespace GetvFfmpeg

/-! ## Convert quality table (server.js, app.post('/convert')) -/

/-- One entry of the `qualitySettings` object: a constant-rate factor
and an encoder speed preset. -/
structure QSetting where
  crf : Nat
  preset : String
deriving DecidableEq, Repr

/-- Property names that every plain object literal inherits from
Object.prototype (Node 20 / V8, Annex B accessors included); bracket
access with one of these keys yields a truthy inherited function or
object, not undefined. -/
def objectProtoKeys : List String :=
  ["constructor", "hasOwnProperty", "isPrototypeOf",
   "propertyIsEnumerable", "toLocaleString", "toString", "valueOf",
   "__defineGetter__", "__defineSetter__", "__lookupGetter__",
   "__lookupSetter__", "__proto__"]

/-- What `qualitySettings[quality]` can evaluate to: one of the three
own data properties, a truthy value inherited from Object.prototype,
or undefined. -/
inductive JsLookup
  | own (s : QSetting)
  | inherited
  | absent
deriving DecidableEq, Repr

/-- The `qualitySettings` object literal under JS bracket access:
keys high / medium / low are its own properties, but the lookup walks
the prototype chain, so the Object.prototype property names also
resolve — to truthy values that are not settings records; every other
key is undefined. -/
def qualitySettings (q : String) : JsLookup :=
  if q = "high" then .own ⟨18, "slow"⟩
  else if q = "medium" then .own ⟨23, "medium"⟩
  else if q = "low" then .own ⟨28, "fast"⟩
  else if objectProtoKeys.contains q then .inherited
  else .absent

/-- The value bound to `settings`: a settings record, or the truthy
inherited Object.prototype value, whose crf and preset fields read as
undefined. -/
inductive JsSettings
  | obj (s : QSetting)
  | inheritedVal
deriving DecidableEq, Repr

/-- `const settings = qualitySettings[quality] || qualitySettings.medium`:
the || keeps any truthy left operand — including an inherited
Object.prototype value — and falls back to the medium tier only for
undefined. -/
def settingsFor (q : String) : JsSettings :=
  match qualitySettings q with
  | .own s => .obj s
  | .inherited => .inheritedVal
  | .absent => .obj ⟨23, "medium"⟩

/-- Template interpolation of `settings.crf`: "undefined" when the
settings value has no such field. -/
def crfStr : JsSettings → String
  | .obj s => toString s.crf
  | .inheritedVal => "undefined"

/-- Template interpolation of `settings.preset`. -/
def presetStr : JsSettings → String
  | .obj s => s.preset
  | .inheritedVal => "undefined"

/-- The ffmpeg invocation assembled by the /convert handler: whether
`.noVideo()` was applied, and the list of `-`-style output options. -/
structure ConvertCommand where
  dropVideo : Bool
  outputOptions : List String
deriving DecidableEq, Repr

/-- The format dispatch of app.post('/convert'): four recognized
containers; any other `outputFormat` leaves the command untouched
(no branch fires), so the command is built with no output options. -/
def buildConvert (outputFormat quality : String) : ConvertCommand :=
  let settings := settingsFor quality
  if outputFormat = "mp4" then
    ⟨false, ["-c:v libx264", "-crf " ++ crfStr settings,
             "-preset " ++ presetStr settings, "-c:a aac", "-b:a 192k"]⟩
  else if outputFormat = "webm" then
    ⟨false, ["-c:v libvpx-vp9", "-crf " ++ crfStr settings,
             "-b:v 0", "-c:a libopus", "-b:a 128k"]⟩
  else if outputFormat = "mp3" then
    ⟨true, ["-c:a libmp3lame", "-b:a 320k"]⟩
  else if outputFormat = "m4a" then
    ⟨true, ["-c:a aac", "-b:a 256k"]⟩
  else
    ⟨false, []⟩

/-- The /convert request handler's validation: only a missing
`videoUrl` is rejected; the output format is never validated. -/
def convertHandler (videoUrl : Option String) (outputFormat quality : String) :
    Except String ConvertCommand :=
  match videoUrl with
  | none => .error "缺少 videoUrl"
  | some _ => .ok (buildConvert outputFormat quality)

/-! ## Task-executor action dispatch (runDownloadTask) -/

/-- The four recognized actions of `runDownloadTask`. -/
inductive ActionKind
  | download
  | merge
  | trim
  | extractAudio
deriving DecidableEq, Repr

/-- The if/else chain of `runDownloadTask`: `download`, `merge` (only
with an audio URL), `trim` (only with trim parameters), and
`extract-audio`; everything else throws '不支持的操作'. -/
def runTaskDispatch (action : String) (hasAudioUrl hasTrimParams : Bool) :
    Except String ActionKind :=
  if action == "download" then .ok .download
  else if action == "merge" && hasAudioUrl then .ok .merge
  else if action == "trim" && hasTrimParams then .ok .trim
  else if action == "extract-audio" then .ok .extractAudio
  else .error "不支持的操作"

/-! ## Trim command builder (app.post('/trim') and the trim branch of
runDownloadTask) -/

/-- The ffmpeg invocation for a trim: `.setStartTime(startTime)`,
`.setDuration(endTime - startTime)` and the copy/timestamp options.
The async task branch passes the options as shown; the synchronous
/trim endpoint passes the same two ffmpeg flags split over separate
array entries. -/
structure TrimCommand where
  startTime : Int
  duration : Int
  outputOptions : List String
deriving DecidableEq, Repr

/-- Builds the trim command exactly as the source does; note there is
no validation of the time range anywhere on either trim path. -/
def trimBuild (startTime endTime : Int) : TrimCommand :=
  ⟨startTime, endTime - startTime, ["-c copy", "-avoid_negative_ts make_zero"]⟩

/-- The /trim request handler's validation: missing `videoUrl` or a
missing `startTime`/`endTime` is rejected; present values are passed
to the builder unchecked. -/
def trimHandler (videoUrl : Option String) (startTime endTime : Option Int) :
    Except String TrimCommand :=
  match videoUrl with
  | none => .error "缺少 videoUrl"
  | some _ =>
    match startTime, endTime with
    | some s, some e => .ok (trimBuild s e)
    | _, _ => .error "缺少 startTime 或 endTime"

/-! ## yt-dlp format selector (download branch of runDownloadTask) -/

/-- `const hasAudioFormats = ['18', '22', '36', '17', '5', '6']` -/
def hasAudioFormats : List String := ["18", "22", "36", "17", "5", "6"]

/-- The selector computation: `if (formatId)` is a JS truthiness test,
so an empty string behaves like an absent formatId. -/
def formatArg : Option String → String
  | some fid =>
    if fid = "" then "bestvideo+bestaudio/best"
    else if hasAudioFormats.contains fid then fid
    else fid ++ "+bestaudio/best"
  | none => "bestvideo+bestaudio/best"

/-! ## Direct HTTP transfer (downloadFile, non-yt-dlp branch) -/

/-- The error taxonomy of the direct transfer: a non-200 upstream
status (`HTTP n`), the streaming size cap ('文件大小超过限制'), a
request error event, and the 30 s timeout ('下载超时'). -/
inductive DLErr
  | upstreamStatus (code : Nat)
  | sizeLimit
  | netErr (msg : String)
  | timeout
deriving DecidableEq, Repr

/-- How a 200-response byte stream terminates after its data events:
the file stream finishes, the request errors out, or the timeout
timer fires. -/
inductive StreamEnd
  | finished
  | errored (msg : String)
  | timedOut
deriving DecidableEq, Repr

/-- One network interaction as seen by the promise body of
`downloadFile`: a 301/302 pointing at a further scenario, a non-200
final status, or a 200 response delivering chunks and terminating. -/
inductive NetScenario
  | redirect (next : NetScenario)
  | badStatus (code : Nat)
  | body (chunks : List Nat) (ending : StreamEnd)
deriving DecidableEq, Repr

/-- `MAX_FILE_SIZE` default: 500 * 1024 * 1024 bytes. -/
def MAX_FILE_SIZE : Nat := 500 * 1024 * 1024

/-- How the download promise settles: resolved with the file path, or
rejected with one of the errors above. -/
inductive DLResult
  | resolved
  | rejected (e : DLErr)
deriving DecidableEq, Repr

/-- What the promise settles to, together with whether the local file
written by `fs.createWriteStream` is still on disk at that moment. -/
structure TransferOutcome where
  result : DLResult
  fileRemains : Bool
deriving DecidableEq, Repr

/-- The data-event loop of the 200 branch: bytes accumulate in
`downloaded`; the instant the running total exceeds the cap the file
is closed, unlinked and the promise rejected.  If the whole stream
passes the check, the terminating event decides the outcome: `finish`
resolves with the file in place; a request 'error' unlinks the file
and rejects; the timeout handler destroys the request and rejects
WITHOUT any unlink, leaving the partial file on disk. -/
def runChunks (maxSize : Nat) : Nat → List Nat → StreamEnd → TransferOutcome
  | _, [], .finished => ⟨.resolved, true⟩
  | _, [], .errored msg => ⟨.rejected (.netErr msg), false⟩
  | _, [], .timedOut => ⟨.rejected .timeout, true⟩
  | dl, c :: cs, e =>
    if dl + c > maxSize then ⟨.rejected .sizeLimit, false⟩
    else runChunks maxSize (dl + c) cs e

/-- The direct-transfer promise body of `downloadFile`: a 301/302
closes and unlinks the partial file, then re-invokes `downloadFile`
on the Location target (same local path); a non-200 status closes,
unlinks and rejects; a 200 streams through `runChunks`. -/
def downloadFileDirect (maxSize : Nat) : NetScenario → TransferOutcome
  | .redirect next => downloadFileDirect maxSize next
  | .badStatus code => ⟨.rejected (.upstreamStatus code), false⟩
  | .body chunks e => runChunks maxSize 0 chunks e

/-! ## Format-descriptor synthesis and sorting (app.post('/parse')) -/

/-- JS truthiness of an optional string field (absent or empty is
falsy). -/
def jsTruthyStr : Option String → Bool
  | none => false
  | some s => s != ""

/-- JS truthiness of an optional numeric field (absent or zero is
falsy). -/
def jsTruthyNat : Option Nat → Bool
  | none => false
  | some n => n != 0

/-- JS template interpolation of an optional numeric field:
an absent value prints as the string "undefined". -/
def jsNumStr : Option Nat → String
  | none => "undefined"
  | some n => toString n

/-- The quality label of a merged or video-only entry:
`f.format_note || f.height ? `${f.height}p` : 'default'`.
Operator precedence makes this `(f.format_note || f.height) ? ... `,
so a truthy format_note with an absent height yields "undefinedp". -/
def qualityLabel (formatNote : Option String) (height : Option Nat) : String :=
  if jsTruthyStr formatNote || jsTruthyNat height then jsNumStr height ++ "p"
  else "default"

/-- A synthesized format descriptor; only the fields the verified
operations read are carried (the url/size/bitrate/codec fields of the
source object play no role in the sort or in the labels). -/
structure FormatDesc where
  id : String
  quality : String
  hasVideo : Bool
  hasAudio : Bool
deriving DecidableEq, Repr

/-- `const qualityOrder = ['2160p', ..., '144p']` -/
def qualityOrder : List String :=
  ["2160p", "1440p", "1080p", "720p", "480p", "360p", "240p", "144p"]

/-- JavaScript `Array.prototype.indexOf`: first index of the value, or
-1 when absent. -/
def jsIndexOf (l : List String) (q : String) : Int :=
  match l with
  | [] => -1
  | x :: xs =>
    if x = q then 0
    else if jsIndexOf xs q = -1 then -1 else jsIndexOf xs q + 1

/-- The sort key of a descriptor: `qualityOrder.indexOf(a.quality)`. -/
def qIdx (f : FormatDesc) : Int := jsIndexOf qualityOrder f.quality

/-- The comparator passed to `formats.sort`: `aIndex - bIndex`. -/
def formatCmp (a b : FormatDesc) : Int := qIdx a - qIdx b

/-- Stable insertion of one element behind every element that does not
compare after it; the building block of the stable sort below. -/
def insertCmp (x : FormatDesc) : List FormatDesc → List FormatDesc
  | [] => [x]
  | y :: ys => if formatCmp y x ≤ 0 then y :: insertCmp x ys else x :: y :: ys

/-- `formats.sort(comparator)`.  Array.prototype.sort is stable in
Node 20 (ECMAScript 2019), and for a comparator derived from a key
function every stable sort produces the same list, so a stable
insertion sort is an exact model. -/
def jsSortFormats (l : List FormatDesc) : List FormatDesc :=
  l.foldl (fun acc x => insertCmp x acc) []

/-- Concrete ranked descriptor used in the sorting counterexample. -/
def desc1080 : FormatDesc := ⟨"137", "1080p", true, false⟩

/-- Concrete unranked descriptor used in the sorting counterexample. -/
def descDefault : FormatDesc := ⟨"0", "default", true, true⟩

/-! ## Task registry, executor and result endpoints
(tasks map, runDownloadTask, POST /download, GET /task/:taskId,
GET /task/:taskId/file, cleanup interval) -/

/-- The four task statuses stored in the registry: the source keeps
them as the strings 'pending' | 'processing' | 'done' | 'error'
('error' is the spec's Failed). -/
inductive TaskStatus
  | pending
  | processing
  | done
  | error
deriving DecidableEq, Repr

/-- The string stored in `task.status` for each status. -/
def statusText : TaskStatus → String
  | .pending => "pending"
  | .processing => "processing"
  | .done => "done"
  | .error => "error"

/-- One registry entry:
`{ status, outputFile, filename, error, createdAt }` (the timestamp is
not read by any verified operation and is omitted). -/
structure TaskRec where
  status : TaskStatus
  outputFile : Option String
  filename : Option String
  errMsg : Option String
deriving DecidableEq, Repr

/-- Progress of the (unique) `runDownloadTask` invocation for one task
id: not yet at its first statement, past `task.status = 'processing'`,
or returned. -/
inductive Phase
  | notStarted
  | running
  | finished
deriving DecidableEq, Repr

/-- Whole-service state: the in-memory `tasks` map, the progress of
each task's executor invocation, and the set of files in TEMP_DIR.
Maps are association lists keyed by task id. -/
structure Sys where
  reg : List (String × TaskRec)
  exec : List (String × Phase)
  fsFiles : List String
deriving DecidableEq, Repr

/-- Replace (or create) the entry for a key in an association list. -/
def updA {β : Type} (l : List (String × β)) (k : String) (v : β) :
    List (String × β) :=
  (k, v) :: l.filter (fun p => p.1 != k)

/-- Delete the entry for a key from an association list. -/
def delA {β : Type} (l : List (String × β)) (k : String) :
    List (String × β) :=
  l.filter (fun p => p.1 != k)

/-- `tasks.get(taskId)` -/
def lookupTask (s : Sys) (tid : String) : Option TaskRec := s.reg.lookup tid

/-- The status of a task as visible in the registry, if present. -/
def statusOf (s : Sys) (tid : String) : Option TaskStatus :=
  (lookupTask s tid).map (fun t => t.status)

/-- Responses of GET /task/:taskId/file. -/
inductive FileResp
  | notFound (msg : String)
  | badRequest (msg : String)
  | fileDownload (path : String) (filename : Option String)
deriving DecidableEq, Repr

/-- Responses of GET /task/:taskId. -/
inductive PollResp
  | notFound (msg : String)
  | taskInfo (status : TaskStatus) (errMsg : Option String)
deriving DecidableEq, Repr

/-- GET /task/:taskId: 404 '任务不存在' for an unknown id, otherwise
the stored status and error message. -/
def pollTask (s : Sys) (tid : String) : PollResp :=
  match lookupTask s tid with
  | none => .notFound "任务不存在"
  | some t => .taskInfo t.status t.errMsg

/-- GET /task/:taskId/file, result and successor state: 404
'任务不存在' for an unknown id; 400 with the current status when not
yet done; 404 '文件不存在' when the recorded output file is absent or
no longer on disk (state untouched); otherwise the file is served and
the completion callback deletes the file and the registry entry. -/
def fetchTaskFile (s : Sys) (tid : String) : FileResp × Sys :=
  match lookupTask s tid with
  | none => (.notFound "任务不存在", s)
  | some t =>
    if t.status = TaskStatus.done then
      match t.outputFile with
      | none => (.notFound "文件不存在", s)
      | some p =>
        if s.fsFiles.contains p then
          (.fileDownload p t.filename,
           { reg := delA s.reg tid, exec := s.exec,
             fsFiles := s.fsFiles.filter (fun q => q != p) })
        else (.notFound "文件不存在", s)
    else (.badRequest ("任务状态: " ++ statusText t.status), s)

/-- The operations that mutate service state, one constructor per
mutation site in the source; an execution of the service is an
arbitrary interleaving of these steps across task ids.
submit: POST /download inserts `{ status: 'pending', ... }` under a
fresh uuid and fires `runDownloadTask`.
claimNone: `runDownloadTask` finds no entry and returns at once.
claim: `runDownloadTask` sets `task.status = 'processing'`.
finishOk / finishErr: the executor body resolves — `task.status =
'done'` with the produced output file, or the catch block sets
`task.status = 'error'` with the message.
fetchFile: GET /task/:taskId/file (all branches; non-serving branches
leave the state unchanged).
sweep: the hourly cleanup interval unlinks an expired temp file. -/
inductive Step : Sys → Sys → Prop
  | submit (s : Sys) (tid : String) (hr : lookupTask s tid = none)
      (he : s.exec.lookup tid = none) :
      Step s ⟨(tid, ⟨.pending, none, none, none⟩) :: s.reg,
              (tid, .notStarted) :: s.exec, s.fsFiles⟩
  | claimNone (s : Sys) (tid : String)
      (he : s.exec.lookup tid = some .notStarted)
      (hr : lookupTask s tid = none) :
      Step s ⟨s.reg, updA s.exec tid .finished, s.fsFiles⟩
  | claim (s : Sys) (tid : String) (t : TaskRec)
      (he : s.exec.lookup tid = some .notStarted)
      (hr : lookupTask s tid = some t) :
      Step s ⟨updA s.reg tid { t with status := .processing },
              updA s.exec tid .running, s.fsFiles⟩
  | finishOk (s : Sys) (tid : String) (t : TaskRec) (p fn : String)
      (he : s.exec.lookup tid = some .running)
      (hr : lookupTask s tid = some t) :
      Step s ⟨updA s.reg tid ⟨.done, some p, some fn, t.errMsg⟩,
              updA s.exec tid .finished, p :: s.fsFiles⟩
  | finishErr (s : Sys) (tid : String) (t : TaskRec) (msg : String)
      (he : s.exec.lookup tid = some .running)
      (hr : lookupTask s tid = some t) :
      Step s ⟨updA s.reg tid { t with status := .error, errMsg := some msg },
              updA s.exec tid .finished, s.fsFiles⟩
  | fetchFile (s : Sys) (tid : String) : Step s (fetchTaskFile s tid).2
  | sweep (s : Sys) (p : String) :
      Step s ⟨s.reg, s.exec, s.fsFiles.filter (fun q => q != p)⟩

/-- The service starts with no tasks, no executors and an empty temp
directory. -/
def initSys : Sys := ⟨[], [], []⟩

/-- States the service can reach through any interleaving of steps. -/
def Reach (s : Sys) : Prop := Relation.ReflTransGen Step initSys s

/-- Executor/registry coupling maintained by every reachable state:
an executor that has not run yet belongs to a registered pending task,
and a claimed executor belongs to a registered processing task. -/
def SysInv (s : Sys) : Prop :=
  ∀ tid : String,
    (s.exec.lookup tid = some .notStarted →
      ∃ t, lookupTask s tid = some t ∧ t.status = .pending) ∧
    (s.exec.lookup tid = some .running →
      ∃ t, lookupTask s tid = some t ∧ t.status = .processing)

/-- Concrete post-submit state used by the C1 witness. -/
def sysAfterSubmit : Sys :=
  ⟨[("t", ⟨.pending, none, none, none⟩)], [("t", .notStarted)], []⟩

/-- Concrete state with one finished task ("a", output on disk) and
one pending task ("b"); used by the fetch-result witness. -/
def sysDoneA : Sys :=
  ⟨[("a", ⟨.done, some "a_output.mp4", some "video.mp4", none⟩),
    ("b", ⟨.pending, none, none, none⟩)],
   [("a", .finished), ("b", .notStarted)], ["a_output.mp4"]⟩

/-- Concrete state where task "a" is done but its output file has
already been swept from disk; used by the C9 witness. -/
def sysDoneSwept : Sys :=
  ⟨[("a", ⟨.done, some "a_output.mp4", some "video.mp4", none⟩)],
   [("a", .finished)], []⟩

/-! ## Theorems -/

/-- Counterexample to claim C4 as stated: the quality value
"constructor" is outside {high, medium, low}, yet does NOT fall back
to the medium tier — bracket lookup finds the truthy inherited
Object.prototype constructor, the || keeps it, and the built mp4
command interpolates undefined for both the factor and the preset
instead of carrying the (23, medium) pair. -/
theorem convert_quality_fallback_counterexample :
    settingsFor "constructor" = .inheritedVal ∧
    settingsFor "constructor" ≠ .obj ⟨23, "medium"⟩ ∧
    (buildConvert "mp4" "constructor").outputOptions =
      ["-c:v libx264", "-crf undefined", "-preset undefined",
       "-c:a aac", "-b:a 192k"] := by decide

/-- Claim C4 (amended): high, medium and low map to the fixed pairs
(18, slow), (23, medium), (28, fast), and a quality value outside
these keys falls back to the medium tier exactly when it is not an
Object.prototype property name (for example "ultra"); a quality value
naming an inherited Object.prototype property ("constructor",
"toString", "__proto__", ...) is truthy under bracket lookup, so the
fallback does not fire and the built mp4 command carries
"-crf undefined -preset undefined". -/
theorem convert_quality_mapping (q : String) :
    settingsFor "high" = .obj ⟨18, "slow"⟩ ∧
    settingsFor "medium" = .obj ⟨23, "medium"⟩ ∧
    settingsFor "low" = .obj ⟨28, "fast"⟩ ∧
    (q ≠ "high" → q ≠ "medium" → q ≠ "low" →
      objectProtoKeys.contains q = false →
      settingsFor q = .obj ⟨23, "medium"⟩) ∧
    (q ≠ "high" → q ≠ "medium" → q ≠ "low" →
      objectProtoKeys.contains q = true →
      settingsFor q = .inheritedVal ∧
      (buildConvert "mp4" q).outputOptions =
        ["-c:v libx264", "-crf undefined", "-preset undefined",
         "-c:a aac", "-b:a 192k"]) ∧
    (buildConvert "mp4" "high").outputOptions =
      ["-c:v libx264", "-crf 18", "-preset slow", "-c:a aac",
       "-b:a 192k"] := by
  refine ⟨rfl, rfl, rfl, ?_, ?_, by decide⟩
  · intro h1 h2 h3 h4
    have h4m : q ∉ objectProtoKeys := by simpa using h4
    simp [settingsFor, qualitySettings, h1, h2, h3, h4m]
  · intro h1 h2 h3 h4
    have h4m : q ∈ objectProtoKeys := by simpa using h4
    have hs : settingsFor q = .inheritedVal := by
      simp [settingsFor, qualitySettings, h1, h2, h3, h4m]
    refine ⟨hs, ?_⟩
    have hb : (buildConvert "mp4" q).outputOptions =
        ["-c:v libx264", "-crf " ++ crfStr (settingsFor q),
         "-preset " ++ presetStr (settingsFor q), "-c:a aac",
         "-b:a 192k"] := rfl
    rw [hb, hs]
    decide

/-- Witness for C4: "ultra" falls back to the medium tier, while
"toString" hits the inherited value and no fallback occurs. -/
theorem convert_quality_mapping_witness :
    settingsFor "ultra" = .obj ⟨23, "medium"⟩ ∧
    settingsFor "toString" = .inheritedVal :=
  ⟨(convert_quality_mapping "ultra").2.2.2.1 (by decide) (by decide)
      (by decide) (by decide),
   ((convert_quality_mapping "toString").2.2.2.2.1 (by decide) (by decide)
      (by decide) (by decide)).1⟩

/-- Claim C7: the yt-dlp format selector of the extractor-backed
download.  A caller-supplied formatId in the bundled-audio allow-list
passes through unchanged; outside the list the selector asks for that
format plus best audio with a merge fallback; with no formatId the
selector is bestvideo+bestaudio/best.  A supplied formatId is a
nonempty string (JS truthiness of `if (formatId)`). -/
theorem download_format_selector (fid : String) (hne : fid ≠ "") :
    (hasAudioFormats.contains fid = true → formatArg (some fid) = fid) ∧
    (hasAudioFormats.contains fid = false →
      formatArg (some fid) = fid ++ "+bestaudio/best") ∧
    formatArg none = "bestvideo+bestaudio/best" := by
  refine ⟨?_, ?_, rfl⟩ <;> intro h
  · simp only [formatArg]
    rw [if_neg hne, if_pos h]
  · simp only [formatArg]
    rw [if_neg hne, if_neg (fun hc => Bool.false_ne_true (h ▸ hc))]

/-- Witness for C7: an allow-listed id, a non-listed id, and the
absent-id default. -/
theorem download_format_selector_witness :
    formatArg (some "18") = "18" ∧
    formatArg (some "137") = "137+bestaudio/best" ∧
    formatArg none = "bestvideo+bestaudio/best" :=
  ⟨(download_format_selector "18" (by decide)).1 (by decide),
   (download_format_selector "137" (by decide)).2.1 (by decide),
   (download_format_selector "18" (by decide)).2.2⟩

/-- Counterexample to claim C3 as stated: for startTime = 60 and
endTime = 10 (end before start), the trim build does not fail with any
InvalidRange error — the handler succeeds and yields a command with
duration -50. -/
theorem trim_invalid_range_counterexample :
    trimHandler (some "http://example.com/v.mp4") (some 60) (some 10) =
      .ok ⟨60, -50, ["-c copy", "-avoid_negative_ts make_zero"]⟩ ∧
    (10 : Int) ≤ 60 := ⟨rfl, by decide⟩

/-- Claim C3 (amended): every trim request with both bounds present
builds a stream-copy command (`-c copy`) with the output timestamp
base zeroed (`-avoid_negative_ts make_zero`) and duration exactly
endTime - startTime, which is positive when start < end; when
end <= start the build still succeeds — no InvalidRange validation
exists — and the duration is simply nonpositive. -/
theorem trim_build_command (url : String) (s e : Int) :
    trimHandler (some url) (some s) (some e) =
      .ok ⟨s, e - s, ["-c copy", "-avoid_negative_ts make_zero"]⟩ ∧
    (s < e → 0 < (trimBuild s e).duration) ∧
    (e ≤ s → (trimBuild s e).duration ≤ 0) := by
  refine ⟨rfl, ?_, ?_⟩ <;> intro h <;> simp [trimBuild] <;> omega

/-- Witness for C3 at the spec's example trim 10..60: duration 50. -/
theorem trim_build_command_witness :
    trimHandler (some "http://example.com/v.mp4") (some 10) (some 60) =
      .ok ⟨10, 50, ["-c copy", "-avoid_negative_ts make_zero"]⟩ ∧
    (0 : Int) < (trimBuild 10 60).duration :=
  ⟨(trim_build_command "http://example.com/v.mp4" 10 60).1,
   (trim_build_command "http://example.com/v.mp4" 10 60).2.1 (by decide)⟩

/-- Counterexample to claim C8 as stated: a Convert request whose
output format is not recognized ("avi") does not fail with any
UnsupportedOperation error — the handler succeeds and silently builds
a command with no codec or quality options at all. -/
theorem unsupported_convert_counterexample :
    convertHandler (some "http://example.com/v.webm") "avi" "high" =
      .ok ⟨false, []⟩ := rfl

/-- Claim C8 (amended): the task executor's action dispatch fails with
'不支持的操作' (UnsupportedOperation) for every action name outside
the four recognized ones, and also for merge without an audio URL and
trim without trim parameters; but an unrecognized Convert output
format does NOT fail — the convert builder silently yields a command
with no output options. -/
theorem unsupported_operation_handling (action fmt q : String)
    (hA hT : Bool)
    (h1 : action ≠ "download") (h2 : action ≠ "merge")
    (h3 : action ≠ "trim") (h4 : action ≠ "extract-audio")
    (g1 : fmt ≠ "mp4") (g2 : fmt ≠ "webm") (g3 : fmt ≠ "mp3")
    (g4 : fmt ≠ "m4a") :
    runTaskDispatch action hA hT = .error "不支持的操作" ∧
    runTaskDispatch "merge" false hT = .error "不支持的操作" ∧
    runTaskDispatch "trim" hA false = .error "不支持的操作" ∧
    buildConvert fmt q = ⟨false, []⟩ := by
  refine ⟨?_, ?_, ?_, ?_⟩
  · simp [runTaskDispatch, h1, h2, h3, h4]
  · simp [runTaskDispatch]
  · simp [runTaskDispatch]
  · simp [buildConvert, g1, g2, g3, g4]

/-- Witness for C8 at the unknown action "upscale" and the unknown
convert format "avi". -/
theorem unsupported_operation_handling_witness :
    runTaskDispatch "upscale" true true = .error "不支持的操作" ∧
    buildConvert "avi" "high" = ⟨false, []⟩ :=
  ⟨(unsupported_operation_handling "upscale" "avi" "high" true true
      (by decide) (by decide) (by decide) (by decide)
      (by decide) (by decide) (by decide) (by decide)).1,
   (unsupported_operation_handling "upscale" "avi" "high" true true
      (by decide) (by decide) (by decide) (by decide)
      (by decide) (by decide) (by decide) (by decide)).2.2.2⟩

/-- On every path of the streaming loop that rejects with anything
other than the timeout error, the partial file has been unlinked. -/
theorem runChunks_cleanup (maxSize : Nat) (e' : DLErr)
    (hne : e' ≠ DLErr.timeout) :
    ∀ (dl : Nat) (chunks : List Nat) (e : StreamEnd),
      (runChunks maxSize dl chunks e).result = .rejected e' →
      (runChunks maxSize dl chunks e).fileRemains = false := by
  intro dl chunks
  induction chunks generalizing dl with
  | nil =>
    intro e h
    cases e with
    | finished => exact absurd h (by simp [runChunks])
    | errored msg => rfl
    | timedOut =>
      exact absurd (by simpa [runChunks] using h.symm) hne
  | cons c cs ih =>
    intro e h
    by_cases hc : dl + c > maxSize
    · simp [runChunks, hc]
    · simp only [runChunks, if_neg hc] at h ⊢
      exact ih (dl + c) e h

/-- A stream whose total size exceeds the remaining budget is aborted
with the size-limit error and the partial file unlinked. -/
theorem runChunks_size_cap (maxSize : Nat) (chunks : List Nat)
    (e : StreamEnd) :
    ∀ dl : Nat, dl ≤ maxSize → maxSize < dl + chunks.sum →
      runChunks maxSize dl chunks e = ⟨.rejected .sizeLimit, false⟩ := by
  induction chunks with
  | nil => intro dl hdl hsum; simp at hsum; omega
  | cons c cs ih =>
    intro dl hdl hsum
    by_cases hc : dl + c > maxSize
    · simp [runChunks, hc]
    · simp only [runChunks, if_neg hc]
      refine ih (dl + c) (by omega) ?_
      simp [List.sum_cons] at hsum
      omega

/-- Counterexample to claim C2 as stated: a transfer that times out
after one data chunk rejects with the timeout error while the partial
file is still on disk — the timeout handler destroys the request and
rejects without any unlink. -/
theorem fetch_cleanup_counterexample :
    downloadFileDirect MAX_FILE_SIZE (.body [1] .timedOut) =
      ⟨.rejected .timeout, true⟩ := rfl

/-- Claim C2 (amended): on the redirect, non-200-status, size-cap and
network-error failure paths of the direct transfer the partial file is
deleted before the error surfaces, and every byte stream whose running
total exceeds the configured cap rejects with the size-limit error and
leaves no partial file; the one exception is the timeout path, which
rejects with the partial file still on disk. -/
theorem fetch_cleanup_on_failure (maxSize : Nat) (sc : NetScenario)
    (chunks : List Nat) (e : StreamEnd) :
    (∀ e', (downloadFileDirect maxSize sc).result = .rejected e' →
      e' ≠ .timeout → (downloadFileDirect maxSize sc).fileRemains = false) ∧
    (maxSize < chunks.sum →
      downloadFileDirect maxSize (.body chunks e) =
        ⟨.rejected .sizeLimit, false⟩) := by
  constructor
  · induction sc with
    | redirect next ih => exact ih
    | badStatus code => intro e' h hne; rfl
    | body chunks0 e0 =>
      intro e' h hne
      exact runChunks_cleanup maxSize e' hne 0 chunks0 e0 h
  · intro h
    exact runChunks_size_cap maxSize chunks e 0 (Nat.zero_le _) (by simpa using h)

/-- Witness for C2: a stream of 3 bytes against a 2-byte cap aborts
with the size-limit error and no partial file; a 404 upstream status
also leaves no file behind. -/
theorem fetch_cleanup_on_failure_witness :
    downloadFileDirect 2 (.body [3] .finished) =
      ⟨.rejected .sizeLimit, false⟩ ∧
    (downloadFileDirect 2 (.badStatus 404)).fileRemains = false :=
  ⟨(fetch_cleanup_on_failure 2 (.body [3] .finished) [3] .finished).2
      (by decide),
   (fetch_cleanup_on_failure 2 (.badStatus 404) [] .finished).1
      (.upstreamStatus 404) rfl (by decide)⟩

/-- Appending the character p to any string cannot produce the string
"default" (their last characters differ). -/
theorem append_p_ne_default (s : String) : s ++ "p" ≠ "default" := by
  intro h
  have hd : s.data ++ [Char.ofNat 112] = "default".data := by
    have := congrArg String.data h
    simpa [String.data_append] using this
  have hlen : s.data.length = 6 := by
    have h7 : ("default".data).length = 7 := rfl
    have h2 := congrArg List.length hd
    rw [List.length_append, h7] at h2
    have h1 : ([Char.ofNat 112]).length = 1 := rfl
    rw [h1] at h2
    omega
  have hd2 : s.data ++ [Char.ofNat 112] =
      [Char.ofNat 100, Char.ofNat 101, Char.ofNat 102, Char.ofNat 97,
       Char.ofNat 117, Char.ofNat 108] ++ [Char.ofNat 116] := by
    rw [hd]; rfl
  have htails := List.append_inj_right hd2 (by simp [hlen])
  have : Char.ofNat 112 = Char.ofNat 116 := by
    simpa using congrArg (fun l => l.headD (Char.ofNat 0)) htails
  exact absurd this (by decide)

/-- Claim C10: the quality label of a merged or video-only entry is
the interpolation of the entry's height followed by p whenever the
entry has a (truthy) format_note or a (truthy) height — including the
label "undefinedp" when a format_note is present but height is absent,
a consequence of the precedence of || over ?: — and "default" is
produced exactly when the entry has neither. -/
theorem parse_quality_label (note : Option String) (ht : Option Nat) :
    ((jsTruthyStr note || jsTruthyNat ht) = true →
      qualityLabel note ht = jsNumStr ht ++ "p") ∧
    (qualityLabel note ht = "default" ↔
      (jsTruthyStr note = false ∧ jsTruthyNat ht = false)) ∧
    qualityLabel (some "720p60") none = "undefinedp" := by
  refine ⟨?_, ?_, rfl⟩
  · intro h; simp [qualityLabel, h]
  · by_cases hb : (jsTruthyStr note || jsTruthyNat ht) = true
    · rw [qualityLabel, if_pos hb]
      constructor
      · intro habs; exact absurd habs (append_p_ne_default _)
      · intro ⟨hn, hh⟩; rw [hn, hh] at hb; exact absurd hb (by decide)
    · have hb' : (jsTruthyStr note || jsTruthyNat ht) = false :=
        Bool.eq_false_iff.mpr hb
      rw [qualityLabel, if_neg hb]
      simp only [Bool.or_eq_false_iff] at hb'
      exact ⟨fun _ => hb', fun _ => rfl⟩

/-- Witness for C10: a real height yields its pixel label, the
missing-height-with-note case yields "undefinedp", and neither field
yields "default". -/
theorem parse_quality_label_witness :
    qualityLabel (some "720p60") (some 720) = "720p" ∧
    qualityLabel none none = "default" :=
  ⟨(parse_quality_label (some "720p60") (some 720)).1 (by decide),
   (parse_quality_label none none).2.1.mpr (by decide)⟩

/-- The quality index of every descriptor is at least -1. -/
theorem neg_one_le_jsIndexOf (l : List String) (q : String) :
    -1 ≤ jsIndexOf l q := by
  induction l with
  | nil => simp [jsIndexOf]
  | cons x xs ih =>
    simp only [jsIndexOf]
    split
    · omega
    · split
      · omega
      · omega

/-- The comparator is nonpositive exactly when the first key does not
exceed the second. -/
theorem formatCmp_nonpos (a b : FormatDesc) :
    formatCmp a b ≤ 0 ↔ qIdx a ≤ qIdx b := by
  simp only [formatCmp]
  omega

/-- Inserting an element permutes consing it on. -/
theorem insertCmp_perm (x : FormatDesc) (l : List FormatDesc) :
    (insertCmp x l).Perm (x :: l) := by
  induction l with
  | nil => exact List.Perm.refl _
  | cons y ys ih =>
    by_cases hc : formatCmp y x ≤ 0
    · rw [insertCmp, if_pos hc]
      exact (ih.cons y).trans (List.Perm.swap x y ys)
    · rw [insertCmp, if_neg hc]

/-- Insertion preserves sortedness by the quality index. -/
theorem insertCmp_sorted (x : FormatDesc) (l : List FormatDesc)
    (h : l.Pairwise (fun a b => qIdx a ≤ qIdx b)) :
    (insertCmp x l).Pairwise (fun a b => qIdx a ≤ qIdx b) := by
  induction l with
  | nil => simp [insertCmp]
  | cons y ys ih =>
    obtain ⟨hy, hys⟩ := List.pairwise_cons.mp h
    by_cases hc : formatCmp y x ≤ 0
    · rw [insertCmp, if_pos hc]
      refine List.pairwise_cons.mpr ⟨?_, ih hys⟩
      intro z hz
      rcases List.mem_cons.mp ((insertCmp_perm x ys).mem_iff.mp hz) with
        hzx | hzys
      · rw [hzx]; exact (formatCmp_nonpos y x).mp hc
      · exact hy z hzys
    · rw [insertCmp, if_neg hc]
      have hxy : qIdx x ≤ qIdx y := by
        have := (formatCmp_nonpos y x).not.mp hc
        omega
      refine List.pairwise_cons.mpr ⟨?_, h⟩
      intro z hz
      rcases List.mem_cons.mp hz with hzy | hzys
      · rw [hzy]; exact hxy
      · exact le_trans hxy (hy z hzys)

/-- A list all of whose keys exceed n has no entries of key n. -/
theorem filter_qIdx_nil (l : List FormatDesc) (n : Int)
    (hn : ∀ z ∈ l, n < qIdx z) :
    l.filter (fun f => qIdx f == n) = [] := by
  induction l with
  | nil => rfl
  | cons y ys ih =>
    have hy : (qIdx y == n) = false := by
      have := hn y (List.mem_cons_self y ys)
      simp only [beq_eq_false_iff_ne, ne_eq]
      omega
    rw [List.filter_cons, hy]
    simp only [Bool.false_eq_true, if_false]
    exact ih (fun z hz => hn z (List.mem_cons_of_mem y hz))

/-- How insertion into a sorted list interacts with filtering one key
class: the inserted element lands exactly at the end of its class. -/
theorem insertCmp_filter (x : FormatDesc) (l : List FormatDesc) (n : Int)
    (hs : l.Pairwise (fun a b => qIdx a ≤ qIdx b)) :
    (insertCmp x l).filter (fun f => qIdx f == n) =
      if qIdx x == n then l.filter (fun f => qIdx f == n) ++ [x]
      else l.filter (fun f => qIdx f == n) := by
  induction l with
  | nil =>
    simp only [insertCmp, List.filter_nil, List.nil_append]
    by_cases hx : qIdx x = n
    · simp [List.filter_cons, hx]
    · simp [List.filter_cons, hx]
  | cons y ys ih =>
    obtain ⟨hy, hys⟩ := List.pairwise_cons.mp hs
    by_cases hc : formatCmp y x ≤ 0
    · rw [insertCmp, if_pos hc, List.filter_cons, List.filter_cons,
        ih hys]
      by_cases hx : qIdx x = n
      · by_cases hyn : qIdx y = n <;> simp [hx, hyn]
      · by_cases hyn : qIdx y = n <;> simp [hx, hyn]
    · rw [insertCmp, if_neg hc, List.filter_cons]
      have hxy : qIdx x < qIdx y := by
        have := (formatCmp_nonpos y x).not.mp hc
        omega
      by_cases hx : qIdx x = n
      · have hnil : (y :: ys).filter (fun f => qIdx f == n) = [] := by
          refine filter_qIdx_nil _ _ ?_
          intro z hz
          rcases List.mem_cons.mp hz with hzy | hzys
          · rw [hzy]; omega
          · have := hy z hzys; omega
        simp [hx, hnil]
      · simp [hx]

/-- Running the sorting fold over any sorted accumulator: the result
is sorted, permutes accumulator-then-input, and concatenates the
filtered key classes of accumulator and input in order (stability). -/
theorem jsSort_fold (l : List FormatDesc) :
    ∀ acc : List FormatDesc,
      acc.Pairwise (fun a b => qIdx a ≤ qIdx b) →
      (List.foldl (fun a x => insertCmp x a) acc l).Pairwise
        (fun a b => qIdx a ≤ qIdx b) ∧
      (List.foldl (fun a x => insertCmp x a) acc l).Perm (acc ++ l) ∧
      ∀ n : Int,
        (List.foldl (fun a x => insertCmp x a) acc l).filter
          (fun f => qIdx f == n) =
        acc.filter (fun f => qIdx f == n) ++
          l.filter (fun f => qIdx f == n) := by
  induction l with
  | nil =>
    intro acc hacc
    exact ⟨hacc, by simp, fun n => by simp⟩
  | cons x xs ih =>
    intro acc hacc
    obtain ⟨hs, hp, hf⟩ := ih (insertCmp x acc) (insertCmp_sorted x acc hacc)
    refine ⟨hs, ?_, ?_⟩
    · refine hp.trans ?_
      refine (((insertCmp_perm x acc).append_right xs).trans ?_)
      exact List.perm_middle.symm
    · intro n
      rw [List.foldl_cons, hf n, insertCmp_filter x acc n hacc,
        List.filter_cons]
      by_cases hx : qIdx x = n
      · simp [hx]
      · simp [hx]

/-- Counterexample to claim C5 as stated: sorting a ranked "1080p"
descriptor together with an unranked "default" descriptor places the
unranked one FIRST, not after the ranked entries — indexOf yields -1
for unranked labels and the comparator sorts ascending by index. -/
theorem format_sort_counterexample :
    jsSortFormats [desc1080, descDefault] = [descDefault, desc1080] ∧
    qIdx descDefault = -1 ∧ qIdx desc1080 = 2 := by decide

/-- Claim C5 (amended): the final sort orders descriptors by ascending
qualityOrder index, so the ranked labels appear as 2160p before 1440p
before ... before 144p, but every descriptor whose label is NOT in the
ranking (index -1) sorts BEFORE all ranked descriptors, in encounter
order; equal indices keep their relative order (the sort is stable:
each key class filters out in input order), and the output is a
permutation of the input. -/
theorem format_sort_order (l : List FormatDesc) :
    (jsSortFormats l).Perm l ∧
    (jsSortFormats l).Pairwise (fun a b => qIdx a ≤ qIdx b) ∧
    (jsSortFormats l).Pairwise
      (fun a b => qIdx b = -1 → qIdx a = -1) ∧
    ∀ n : Int,
      (jsSortFormats l).filter (fun f => qIdx f == n) =
        l.filter (fun f => qIdx f == n) := by
  obtain ⟨hs, hp, hf⟩ := jsSort_fold l [] (List.Pairwise.nil)
  refine ⟨by simpa using hp, hs, ?_, fun n => by simpa using hf n⟩
  refine hs.imp ?_
  intro a b hab hb
  have ha := neg_one_le_jsIndexOf qualityOrder a.quality
  simp only [qIdx] at *
  omega

/-- Witness for C5 on a concrete descriptor list: 2160p, equal-rank
720p entries in stable order, unranked entries first. -/
theorem format_sort_order_witness :
    (jsSortFormats [desc1080, descDefault]).Perm [desc1080, descDefault] :=
  (format_sort_order [desc1080, descDefault]).1

/-- Looking up the key just consed on. -/
theorem lookup_cons_eq {β : Type} (l : List (String × β)) (k : String)
    (v : β) : ((k, v) :: l).lookup k = some v := by
  simp [List.lookup]

/-- Looking up a different key skips the head. -/
theorem lookup_cons_ne {β : Type} (l : List (String × β)) (k q : String)
    (v : β) (h : q ≠ k) : ((k, v) :: l).lookup q = l.lookup q := by
  have hqk : (q == k) = false := by simp [h]
  simp [List.lookup, hqk]

/-- Removing the entries of one key leaves other lookups unchanged. -/
theorem lookup_filter_ne {β : Type} (l : List (String × β))
    (k q : String) (h : q ≠ k) :
    (l.filter (fun p => p.1 != k)).lookup q = l.lookup q := by
  induction l with
  | nil => rfl
  | cons hd tl ih =>
    obtain ⟨a, b⟩ := hd
    by_cases hak : a = k
    · rw [List.filter_cons]
      simp only [hak, bne_self_eq_false, Bool.false_eq_true, if_false]
      rw [ih, lookup_cons_ne tl k q b (hak ▸ h)]
    · rw [List.filter_cons]
      have : ((a, b).1 != k) = true := by simp [hak]
      rw [if_pos this]
      by_cases hqa : q = a
      · rw [hqa, lookup_cons_eq, lookup_cons_eq]
      · rw [lookup_cons_ne _ _ _ _ hqa, lookup_cons_ne _ _ _ _ hqa, ih]

/-- Removing the entries of a key makes its lookup fail. -/
theorem lookup_filter_eq {β : Type} (l : List (String × β)) (k : String) :
    (l.filter (fun p => p.1 != k)).lookup k = none := by
  induction l with
  | nil => rfl
  | cons hd tl ih =>
    obtain ⟨a, b⟩ := hd
    by_cases hak : a = k
    · rw [List.filter_cons]
      simp only [hak, bne_self_eq_false, Bool.false_eq_true, if_false]
      exact ih
    · rw [List.filter_cons]
      have : ((a, b).1 != k) = true := by simp [hak]
      rw [if_pos this, lookup_cons_ne _ _ _ _ (fun hka => hak hka.symm)]
      exact ih

/-- Lookup after an update at the same key. -/
theorem lookup_updA_eq {β : Type} (l : List (String × β)) (k : String)
    (v : β) : (updA l k v).lookup k = some v :=
  lookup_cons_eq _ k v

/-- Lookup after an update at a different key. -/
theorem lookup_updA_ne {β : Type} (l : List (String × β)) (k q : String)
    (v : β) (h : q ≠ k) : (updA l k v).lookup q = l.lookup q := by
  rw [updA, lookup_cons_ne _ _ _ _ h, lookup_filter_ne _ _ _ h]

/-- Lookup after deleting the same key. -/
theorem lookup_delA_eq {β : Type} (l : List (String × β)) (k : String) :
    (delA l k).lookup k = none :=
  lookup_filter_eq l k

/-- Lookup after deleting a different key. -/
theorem lookup_delA_ne {β : Type} (l : List (String × β)) (k q : String)
    (h : q ≠ k) : (delA l k).lookup q = l.lookup q :=
  lookup_filter_ne l k q h

/-- A file filtered out of the directory listing is no longer found. -/
theorem contains_filter_self (l : List String) (p : String) :
    (l.filter (fun q => q != p)).contains p = false := by
  induction l with
  | nil => rfl
  | cons a as ih =>
    by_cases hap : a = p
    · rw [List.filter_cons]
      simp only [hap, bne_self_eq_false, Bool.false_eq_true, if_false]
      exact ih
    · rw [List.filter_cons]
      have : (a != p) = true := by simp [hap]
      rw [if_pos this]
      simp only [List.contains_cons, ih, Bool.or_false]
      simp only [beq_eq_false_iff_ne, ne_eq]
      exact fun hpa => hap hpa.symm

/-- The result-fetch endpoint either leaves the state unchanged or
serves a done task's file, deleting the registry entry and the file. -/
theorem fetchTaskFile_state (s : Sys) (tid : String) :
    (fetchTaskFile s tid).2 = s ∨
    ∃ t p, lookupTask s tid = some t ∧ t.status = .done ∧
      t.outputFile = some p ∧ s.fsFiles.contains p = true ∧
      (fetchTaskFile s tid).2 =
        ⟨delA s.reg tid, s.exec, s.fsFiles.filter (fun q => q != p)⟩ := by
  unfold fetchTaskFile
  cases hl : lookupTask s tid with
  | none => exact Or.inl rfl
  | some t =>
    by_cases hst : t.status = TaskStatus.done
    · cases hp : t.outputFile with
      | none => simp [hst, hp]
      | some p =>
        by_cases hc : p ∈ s.fsFiles
        · right
          exact ⟨t, p, rfl, hst, hp, by simpa using hc,
            by simp [hst, hp, hc]⟩
        · left
          simp [hst, hp, hc]
    · left
      simp [hst]

/-- Claim C6: the result-fetch endpoint serves the artifact exactly
for a done task whose file is on disk, and then deletes both the file
and the registry entry, so a subsequent poll of the same id reports
the unknown-task error; an unknown id and a known-but-not-done id
yield structurally distinct error responses (404 '任务不存在' versus
400 with the current status). -/
theorem fetch_result_consumes_task (s : Sys) (tid tid2 tid3 : String)
    (t t3 : TaskRec) (p : String)
    (ht : lookupTask s tid = some t) (hd : t.status = .done)
    (hp : t.outputFile = some p) (hf : s.fsFiles.contains p = true) :
    (fetchTaskFile s tid).1 = .fileDownload p t.filename ∧
    lookupTask (fetchTaskFile s tid).2 tid = none ∧
    (fetchTaskFile s tid).2.fsFiles.contains p = false ∧
    pollTask (fetchTaskFile s tid).2 tid = .notFound "任务不存在" ∧
    (lookupTask s tid2 = none →
      (fetchTaskFile s tid2).1 = .notFound "任务不存在" ∧
      pollTask s tid2 = .notFound "任务不存在") ∧
    (lookupTask s tid3 = some t3 → t3.status ≠ .done →
      (fetchTaskFile s tid3).1 =
        .badRequest ("任务状态: " ++ statusText t3.status)) ∧
    (∀ m1 m2 : String, FileResp.notFound m1 ≠ FileResp.badRequest m2) ∧
    (∀ tid4 p4 fn4, (fetchTaskFile s tid4).1 = .fileDownload p4 fn4 →
      ∃ t4, lookupTask s tid4 = some t4 ∧ t4.status = .done) := by
  have hfetch : fetchTaskFile s tid =
      (.fileDownload p t.filename,
       ⟨delA s.reg tid, s.exec, s.fsFiles.filter (fun q => q != p)⟩) := by
    have hf2 : p ∈ s.fsFiles := by simpa using hf
    unfold fetchTaskFile
    rw [ht]
    simp [hd, hp, hf2]
  refine ⟨by rw [hfetch], ?_, ?_, ?_, ?_, ?_, ?_, ?_⟩
  · rw [hfetch]
    exact lookup_delA_eq s.reg tid
  · rw [hfetch]
    exact contains_filter_self s.fsFiles p
  · rw [hfetch]
    simp only [pollTask, lookupTask]
    rw [lookup_delA_eq]
  · intro h2
    constructor
    · unfold fetchTaskFile
      rw [h2]
    · unfold pollTask
      rw [h2]
  · intro h3 hnd
    unfold fetchTaskFile
    rw [h3]
    simp [hnd]
  · intro m1 m2 hcon
    exact FileResp.noConfusion hcon
  · intro tid4 p4 fn4 hres
    cases hl : lookupTask s tid4 with
    | none =>
      have hbad : (fetchTaskFile s tid4).1 = .notFound "任务不存在" := by
        unfold fetchTaskFile
        rw [hl]
      rw [hbad] at hres
      exact absurd hres (by simp)
    | some t4 =>
      by_cases hst : t4.status = TaskStatus.done
      · exact ⟨t4, rfl, hst⟩
      · have hbad : (fetchTaskFile s tid4).1 =
            .badRequest ("任务状态: " ++ statusText t4.status) := by
          unfold fetchTaskFile
          rw [hl]
          simp [hst]
        rw [hbad] at hres
        exact absurd hres (by simp)

/-- Witness for C6 on a concrete two-task state: the done task "a" is
served and afterwards polls as unknown. -/
theorem fetch_result_consumes_task_witness :
    (fetchTaskFile sysDoneA "a").1 =
      .fileDownload "a_output.mp4" (some "video.mp4") ∧
    pollTask (fetchTaskFile sysDoneA "a").2 "a" = .notFound "任务不存在" :=
  have h := fetch_result_consumes_task sysDoneA "a" "zzz" "b"
    ⟨.done, some "a_output.mp4", some "video.mp4", none⟩
    ⟨.pending, none, none, none⟩ "a_output.mp4" rfl rfl rfl (by decide)
  ⟨h.1, h.2.2.2.1⟩

/-- Claim C9: when a task is done but its recorded output file is no
longer on disk, the result-fetch answers 404 '文件不存在' and leaves
the whole state — registry entry included — unchanged, so the same id
still polls as done afterwards. -/
theorem fetch_result_missing_file (s : Sys) (tid : String) (t : TaskRec)
    (p : String) (ht : lookupTask s tid = some t) (hd : t.status = .done)
    (hp : t.outputFile = some p) (hf : s.fsFiles.contains p = false) :
    (fetchTaskFile s tid).1 = .notFound "文件不存在" ∧
    (fetchTaskFile s tid).2 = s ∧
    pollTask (fetchTaskFile s tid).2 tid = .taskInfo .done t.errMsg := by
  have hfetch : fetchTaskFile s tid = (.notFound "文件不存在", s) := by
    have hf2 : p ∉ s.fsFiles := by simpa using hf
    unfold fetchTaskFile
    rw [ht]
    simp [hd, hp, hf2]
  refine ⟨by rw [hfetch], by rw [hfetch], ?_⟩
  rw [hfetch]
  simp [pollTask, ht, hd]

/-- Witness for C9: task "a" is done, its file already swept; the
fetch reports the missing file and "a" still polls as done. -/
theorem fetch_result_missing_file_witness :
    (fetchTaskFile sysDoneSwept "a").1 = .notFound "文件不存在" ∧
    pollTask (fetchTaskFile sysDoneSwept "a").2 "a" =
      .taskInfo .done none :=
  have h := fetch_result_missing_file sysDoneSwept "a"
    ⟨.done, some "a_output.mp4", some "video.mp4", none⟩
    "a_output.mp4" rfl rfl rfl (by decide)
  ⟨h.1, h.2.2⟩

/-- The invariant holds in the initial state. -/
theorem sysInv_init : SysInv initSys := by
  intro tid
  constructor <;> intro hx <;> simp [initSys, List.lookup] at hx

/-- Every step preserves the executor/registry invariant. -/
theorem sysInv_step (s s' : Sys) (hstep : Step s s') (hinv : SysInv s) :
    SysInv s' := by
  cases hstep with
  | submit tid0 hr he =>
    intro tid
    by_cases h : tid = tid0
    · subst h
      constructor <;> intro hx
      · exact ⟨⟨.pending, none, none, none⟩, lookup_cons_eq _ _ _, rfl⟩
      · rw [lookup_cons_eq] at hx
        exact absurd hx (by simp)
    · constructor <;> intro hx
      · rw [lookup_cons_ne _ _ _ _ h] at hx
        obtain ⟨t, ht, hp⟩ := (hinv tid).1 hx
        exact ⟨t, by rw [lookupTask] at ht ⊢; rw [lookup_cons_ne _ _ _ _ h]; exact ht, hp⟩
      · rw [lookup_cons_ne _ _ _ _ h] at hx
        obtain ⟨t, ht, hp⟩ := (hinv tid).2 hx
        exact ⟨t, by rw [lookupTask] at ht ⊢; rw [lookup_cons_ne _ _ _ _ h]; exact ht, hp⟩
  | claimNone tid0 he hr =>
    intro tid
    by_cases h : tid = tid0
    · subst h
      constructor <;> intro hx <;> rw [lookup_updA_eq] at hx <;>
        exact absurd hx (by simp)
    · constructor <;> intro hx <;> rw [lookup_updA_ne _ _ _ _ h] at hx
      · exact (hinv tid).1 hx
      · exact (hinv tid).2 hx
  | claim tid0 t he hr =>
    intro tid
    by_cases h : tid = tid0
    · subst h
      constructor <;> intro hx <;> rw [lookup_updA_eq] at hx
      · exact absurd hx (by simp)
      · exact ⟨{ t with status := .processing },
          by rw [lookupTask]; exact lookup_updA_eq _ _ _, rfl⟩
    · constructor <;> intro hx <;> rw [lookup_updA_ne _ _ _ _ h] at hx
      · obtain ⟨t1, ht1, hp1⟩ := (hinv tid).1 hx
        exact ⟨t1, by rw [lookupTask] at ht1 ⊢; rw [lookup_updA_ne _ _ _ _ h]; exact ht1, hp1⟩
      · obtain ⟨t1, ht1, hp1⟩ := (hinv tid).2 hx
        exact ⟨t1, by rw [lookupTask] at ht1 ⊢; rw [lookup_updA_ne _ _ _ _ h]; exact ht1, hp1⟩
  | finishOk tid0 t p fn he hr =>
    intro tid
    by_cases h : tid = tid0
    · subst h
      constructor <;> intro hx <;> rw [lookup_updA_eq] at hx <;>
        exact absurd hx (by simp)
    · constructor <;> intro hx <;> rw [lookup_updA_ne _ _ _ _ h] at hx
      · obtain ⟨t1, ht1, hp1⟩ := (hinv tid).1 hx
        exact ⟨t1, by rw [lookupTask] at ht1 ⊢; rw [lookup_updA_ne _ _ _ _ h]; exact ht1, hp1⟩
      · obtain ⟨t1, ht1, hp1⟩ := (hinv tid).2 hx
        exact ⟨t1, by rw [lookupTask] at ht1 ⊢; rw [lookup_updA_ne _ _ _ _ h]; exact ht1, hp1⟩
  | finishErr tid0 t msg he hr =>
    intro tid
    by_cases h : tid = tid0
    · subst h
      constructor <;> intro hx <;> rw [lookup_updA_eq] at hx <;>
        exact absurd hx (by simp)
    · constructor <;> intro hx <;> rw [lookup_updA_ne _ _ _ _ h] at hx
      · obtain ⟨t1, ht1, hp1⟩ := (hinv tid).1 hx
        exact ⟨t1, by rw [lookupTask] at ht1 ⊢; rw [lookup_updA_ne _ _ _ _ h]; exact ht1, hp1⟩
      · obtain ⟨t1, ht1, hp1⟩ := (hinv tid).2 hx
        exact ⟨t1, by rw [lookupTask] at ht1 ⊢; rw [lookup_updA_ne _ _ _ _ h]; exact ht1, hp1⟩
  | fetchFile tid0 =>
    rcases fetchTaskFile_state s tid0 with heq | ⟨t, p, hl, hd, hp, hc, heq⟩
    · rw [heq]; exact hinv
    · rw [heq]
      intro tid
      by_cases h : tid = tid0
      · subst h
        constructor <;> intro hx
        · obtain ⟨t1, ht1, hp1⟩ := (hinv tid).1 hx
          rw [hl] at ht1
          cases ht1
          rw [hd] at hp1
          exact absurd hp1 (by simp)
        · obtain ⟨t1, ht1, hp1⟩ := (hinv tid).2 hx
          rw [hl] at ht1
          cases ht1
          rw [hd] at hp1
          exact absurd hp1 (by simp)
      · constructor <;> intro hx
        · obtain ⟨t1, ht1, hp1⟩ := (hinv tid).1 hx
          exact ⟨t1, by rw [lookupTask] at ht1 ⊢; rw [lookup_delA_ne _ _ _ h]; exact ht1, hp1⟩
        · obtain ⟨t1, ht1, hp1⟩ := (hinv tid).2 hx
          exact ⟨t1, by rw [lookupTask] at ht1 ⊢; rw [lookup_delA_ne _ _ _ h]; exact ht1, hp1⟩
  | sweep p => exact hinv

/-- Every reachable state satisfies the invariant. -/
theorem sysInv_reach (s : Sys) (h : Reach s) : SysInv s := by
  induction h with
  | refl => exact sysInv_init
  | tail hsteps hstep ih => exact sysInv_step _ _ hstep ih

/-- The complete status-change analysis of one step of the service:
a task's visible status either is untouched, or appears as pending at
submission, or advances pending to processing at the executor claim,
or advances processing to done/error at executor completion, or the
done entry is deleted by a successful result fetch. -/
theorem statusOf_step (s s' : Sys) (hstep : Step s s') (hinv : SysInv s)
    (tid : String) :
    statusOf s' tid = statusOf s tid ∨
    (statusOf s tid = none ∧ statusOf s' tid = some .pending) ∨
    (statusOf s tid = some .pending ∧
      statusOf s' tid = some .processing) ∨
    (statusOf s tid = some .processing ∧
      (statusOf s' tid = some .done ∨ statusOf s' tid = some .error)) ∨
    (statusOf s tid = some .done ∧ statusOf s' tid = none) := by
  cases hstep with
  | submit tid0 hr he =>
    by_cases h : tid = tid0
    · subst h
      right; left
      constructor
      · simp [statusOf, hr]
      · simp only [statusOf, lookupTask]
        rw [lookup_cons_eq]
        rfl
    · left
      simp only [statusOf, lookupTask]
      rw [lookup_cons_ne _ _ _ _ h]
  | claimNone tid0 he hr => left; rfl
  | claim tid0 t he hr =>
    by_cases h : tid = tid0
    · subst h
      obtain ⟨t1, ht1, hp1⟩ := (hinv tid).1 he
      rw [hr] at ht1
      cases ht1
      right; right; left
      constructor
      · simp [statusOf, hr, hp1]
      · simp only [statusOf, lookupTask]
        rw [lookup_updA_eq]
        rfl
    · left
      simp only [statusOf, lookupTask]
      rw [lookup_updA_ne _ _ _ _ h]
  | finishOk tid0 t p fn he hr =>
    by_cases h : tid = tid0
    · subst h
      obtain ⟨t1, ht1, hp1⟩ := (hinv tid).2 he
      rw [hr] at ht1
      cases ht1
      right; right; right; left
      refine ⟨by simp [statusOf, hr, hp1], Or.inl ?_⟩
      simp only [statusOf, lookupTask]
      rw [lookup_updA_eq]
      rfl
    · left
      simp only [statusOf, lookupTask]
      rw [lookup_updA_ne _ _ _ _ h]
  | finishErr tid0 t msg he hr =>
    by_cases h : tid = tid0
    · subst h
      obtain ⟨t1, ht1, hp1⟩ := (hinv tid).2 he
      rw [hr] at ht1
      cases ht1
      right; right; right; left
      refine ⟨by simp [statusOf, hr, hp1], Or.inr ?_⟩
      simp only [statusOf, lookupTask]
      rw [lookup_updA_eq]
      rfl
    · left
      simp only [statusOf, lookupTask]
      rw [lookup_updA_ne _ _ _ _ h]
  | fetchFile tid0 =>
    rcases fetchTaskFile_state s tid0 with heq | ⟨t, p, hl, hd, hp, hc, heq⟩
    · rw [heq]; left; rfl
    · rw [heq]
      by_cases h : tid = tid0
      · subst h
        right; right; right; right
        constructor
        · simp [statusOf, hl, hd]
        · simp only [statusOf, lookupTask]
          rw [lookup_delA_eq]
          rfl
      · left
        simp only [statusOf, lookupTask]
        rw [lookup_delA_ne _ _ _ h]
  | sweep p => left; rfl

/-- Claim C1: task status is monotonic for all interleavings.  From
any reachable state, one step of the service (1) never moves a task
out of done or error — a terminal status persists verbatim, except
that a done task may be deleted whole by a successful result fetch;
(2) changes a task's status only along pending to processing (the
executor claim, which fires at most once since it consumes the
executor's not-yet-started phase) or processing to done/error (the
executor's single terminal transition); and (3) creates tasks only in
the pending status. -/
theorem task_status_monotonic (s s' : Sys) (tid : String)
    (hreach : Reach s) (hstep : Step s s') :
    (∀ st, statusOf s tid = some st → (st = .done ∨ st = .error) →
      statusOf s' tid = some st ∨
        (st = .done ∧ statusOf s' tid = none)) ∧
    (∀ st st', statusOf s tid = some st → statusOf s' tid = some st' →
      st ≠ st' →
      (st = .pending ∧ st' = .processing) ∨
        (st = .processing ∧ (st' = .done ∨ st' = .error))) ∧
    (statusOf s tid = none →
      statusOf s' tid = none ∨ statusOf s' tid = some .pending) := by
  have hinv := sysInv_reach s hreach
  have hcases := statusOf_step s s' hstep hinv tid
  refine ⟨?_, ?_, ?_⟩
  · intro st hst hterm
    rcases hcases with heq | ⟨h1, h2⟩ | ⟨h1, h2⟩ | ⟨h1, h2⟩ | ⟨h1, h2⟩
    · left; rw [heq, hst]
    · rw [h1] at hst; exact absurd hst (by simp)
    · rw [h1] at hst
      cases hst
      rcases hterm with h | h <;> exact absurd h (by simp)
    · rw [h1] at hst
      cases hst
      rcases hterm with h | h <;> exact absurd h (by simp)
    · rw [h1] at hst
      cases hst
      exact Or.inr ⟨rfl, h2⟩
  · intro st st' hst hst' hne
    rcases hcases with heq | ⟨h1, h2⟩ | ⟨h1, h2⟩ | ⟨h1, h2⟩ | ⟨h1, h2⟩
    · rw [heq, hst] at hst'
      cases hst'
      exact absurd rfl hne
    · rw [h1] at hst; exact absurd hst (by simp)
    · rw [h1] at hst
      cases hst
      rw [h2] at hst'
      cases hst'
      exact Or.inl ⟨rfl, rfl⟩
    · rw [h1] at hst
      cases hst
      rcases h2 with h2 | h2 <;> rw [h2] at hst' <;> cases hst'
      · exact Or.inr ⟨rfl, Or.inl rfl⟩
      · exact Or.inr ⟨rfl, Or.inr rfl⟩
    · rw [h2] at hst'; exact absurd hst' (by simp)
  · intro h
    rcases hcases with heq | ⟨h1, h2⟩ | ⟨h1, h2⟩ | ⟨h1, h2⟩ | ⟨h1, h2⟩
    · left; rw [heq, h]
    · right; exact h2
    · rw [h1] at h; exact absurd h (by simp)
    · rw [h1] at h; exact absurd h (by simp)
    · rw [h1] at h; exact absurd h (by simp)

/-- Witness for C1: submitting a fresh task from the initial state is
a step, and the theorem applied to it shows the created task surfaces
as pending. -/
theorem task_status_monotonic_witness :
    statusOf sysAfterSubmit "t" = none ∨
    statusOf sysAfterSubmit "t" = some .pending :=
  (task_status_monotonic initSys sysAfterSubmit "t"
    Relation.ReflTransGen.refl (Step.submit initSys "t" rfl rfl)).2.2 rfl

end GetvFfmpeg
